import Mathlib

set_option maxRecDepth 100000

/-!
# Verification of the financial-news RAG pipeline

Shallow embedding of the core of the `financial-rag-analyzer` repository:

* `services/data_pipeline/app/scraper.py` — content validation, article
  extraction, per-source scraping, the Selenium driver lifecycle;
* `services/data_pipeline/app/pipeline.py` — text cleaning, chunking and
  metadata attachment;
* `services/backend_api/app/core.py` — database stats, retrieval filters,
  answer streaming and citation formatting.

External capabilities (HTTP fetch, HTML parsing and link discovery, the
headless browser, the embedding model, the LLM, the Chroma collection and the
LangChain text splitter) are modelled as explicit function parameters or
`Except`-valued operations, following the specification's own scoping: the
raw fetch/render mechanics are "modeled only as a capability".  Python
exceptions are modelled with `Except String`; `try/except` blocks become
explicit matches on those values.
-/

/-! ## String utilities

Python's `in` operator on strings is contiguous-substring containment; we
model it on the character lists underlying `String`. -/

/-- `needle in hay` for Python strings: `needle.toList` occurs as a
contiguous sublist of `hay.toList` (an empty needle is always contained). -/
def listContainsSub (needle : List Char) : List Char → Bool
  | [] => needle.isEmpty
  | c :: t => needle.isPrefixOf (c :: t) || listContainsSub needle t

/-- Substring containment on `String`, i.e. Python's `needle in hay`. -/
def containsSub (needle hay : String) : Bool :=
  listContainsSub needle.toList hay.toList

/-- Python's `str.lower()`, character by character.  (Defined over the
character list rather than through `String.map` so that it evaluates by
kernel reduction.) -/
def pyLower (s : String) : String :=
  String.mk (s.toList.map Char.toLower)

/-! ## Content validator (`scraper.py`, lines 24–60) -/

/-- The fixed financial-keyword vocabulary (`FINANCIAL_KEYWORDS`,
`scraper.py` lines 24–28). -/
def FINANCIAL_KEYWORDS : List String :=
  ["stock", "market", "nse", "bse", "sensex", "nifty", "ipo", "fpo", "equity",
   "shares", "invest", "trading", "rbi", "earnings", "quarter", "profit",
   "revenue", "economy", "gdp", "inflation", "gst", "finance", "brokerage", "fed"]

/-- The paywall test of `_is_relevant` (`scraper.py` line 54):
`"etprime member" in text.lower() or "subscribe to read" in text.lower()`. -/
def hasPaywallPhrase (text : String) : Bool :=
  containsSub "etprime member" (pyLower text) || containsSub "subscribe to read" (pyLower text)

/-- `FinancialNewsScraper._is_relevant` (`scraper.py` lines 47–60):
reject empty/short text, reject paywalled text, then require at least two
distinct vocabulary keywords in the lowercased `title + ' ' + text`. -/
def is_relevant (text title : String) : Bool :=
  if text.isEmpty || decide (text.length < 300) then false
  else if hasPaywallPhrase text then false
  else
    decide (2 ≤ (FINANCIAL_KEYWORDS.filter
      (fun k => containsSub k (pyLower (title ++ " " ++ text)))).length)

/-- C4: the content validator `_is_relevant(text, title)` returns `false`
whenever `text` is shorter than 300 characters or contains a paywall phrase
(regardless of keyword count), and returns `true` whenever `text` has length
at least 300, contains no paywall phrase, and at least two distinct terms of
the fixed financial-keyword vocabulary occur case-insensitively in
`title ++ " " ++ text`. -/
theorem C4_is_relevant_contract (text title : String) :
    (text.length < 300 ∨ hasPaywallPhrase text = true →
      is_relevant text title = false) ∧
    (300 ≤ text.length → hasPaywallPhrase text = false →
      2 ≤ (FINANCIAL_KEYWORDS.filter
            (fun k => containsSub k (pyLower (title ++ " " ++ text)))).length →
      is_relevant text title = true) := by
  constructor
  · intro h
    unfold is_relevant
    rcases h with h | h
    · simp [h]
    · by_cases he : (text.isEmpty || decide (text.length < 300)) = true
      · simp [he]
      · simp only [he, Bool.false_eq_true, if_false, h, if_true]
  · intro h300 hpay hkw
    have h1 : text.isEmpty = false := by
      cases he : text.isEmpty
      · rfl
      · have : text = "" := (String.isEmpty_iff text).mp he
        subst this
        simp at h300
    have h2 : decide (text.length < 300) = false := by
      simp only [decide_eq_false_iff_not, not_lt]
      exact h300
    unfold is_relevant
    simp [h1, h2, hpay, hkw]

/-- A 300-character filler of financially irrelevant text. -/
def zFill : String := String.mk (List.replicate 300 'z')

/-- Witness for C4: a concrete 313-character text containing the two distinct
keywords "stock" and "market" and no paywall phrase is accepted. -/
theorem C4_is_relevant_contract_witness :
    is_relevant ("stock market " ++ zFill) "Daily brief" = true :=
  (C4_is_relevant_contract ("stock market " ++ zFill) "Daily brief").2
    (by decide) (by decide) (by decide)

/-! ## Chunker (`pipeline.py`)

The LangChain `RecursiveCharacterTextSplitter` is an external library
capability; `process_articles` is therefore parameterised by the splitting
function `split : String → List String` it applies to the cleaned text.
Python dicts with string keys and scalar values are modelled as association
lists of `MetaValue`; an input article dict is a record of optional fields
(`none` = key absent). -/

/-- A scalar metadata value as it appears in a Python dict: a string, an
integer, or Python's `None`. -/
inductive MetaValue where
  | str (s : String)
  | int (n : Nat)
  | null
deriving DecidableEq

/-- `true` iff the value is a string. -/
def MetaValue.isStr : MetaValue → Bool
  | .str _ => true
  | _ => false

/-- A raw article dict as produced by the scraper and consumed by
`process_articles`.  Every field is optional: `none` models an absent key.
(The Python key `"section"` is a Lean keyword, hence the field name `sec`.) -/
structure Article where
  url : Option String := none
  title : Option String := none
  text : Option String := none
  publish_date : Option String := none
  scraped_at : Option String := none
  source : Option String := none
  sec : Option String := none
deriving DecidableEq

/-- A LangChain `Document`: page content plus a metadata dict. -/
structure Document where
  page_content : String
  metadata : List (String × MetaValue)
deriving DecidableEq

/-- Python's `\s` (ASCII range), used by `re.sub(r'\s+', ' ', text)` and
`str.strip()`. -/
def pyIsSpace (c : Char) : Bool :=
  c = ' ' || c = '\t' || c = '\n' || c = '\r' || c = '\x0b' || c = '\x0c'

/-- Auxiliary for `re.sub(r'\s+', ' ', text)`: replaces every maximal run of
whitespace by a single space; `prevSpace` records whether the previous
character belonged to a run already replaced. -/
def collapseWsAux : Bool → List Char → List Char
  | _, [] => []
  | prevSpace, c :: t =>
    if pyIsSpace c then
      (if prevSpace then [] else [' ']) ++ collapseWsAux true t
    else c :: collapseWsAux false t

/-- `re.sub(r'\s+', ' ', text)`. -/
def collapseWs (l : List Char) : List Char :=
  collapseWsAux false l

/-- `re.sub(r'(\r\n|\n|\r)', ' ', text)` (a no-op after `collapseWs`, kept
for fidelity to `_clean_text`). -/
def replaceNewlines : List Char → List Char
  | [] => []
  | '\r' :: '\n' :: t => ' ' :: replaceNewlines t
  | c :: t => (if c = '\n' || c = '\r' then ' ' else c) :: replaceNewlines t

/-- Python `str.strip()`: drop leading and trailing whitespace. -/
def stripEnds (l : List Char) : List Char :=
  ((l.dropWhile pyIsSpace).reverse.dropWhile pyIsSpace).reverse

/-- `DataProcessor._clean_text` (`pipeline.py` lines 18–22). -/
def clean_text (text : String) : String :=
  String.mk (stripEnds (replaceNewlines (collapseWs text.toList)))

/-- The per-article metadata dict built at `pipeline.py` lines 46–52: every
field coerced with `str(...)`, absent keys defaulting to `"N/A"`, and a falsy
(`None` or empty) publish date replaced by `"N/A"`. -/
def chunkMetadata (article : Article) : List (String × MetaValue) :=
  [("title", MetaValue.str (article.title.getD "N/A")),
   ("source", MetaValue.str (article.source.getD "N/A")),
   ("url", MetaValue.str (article.url.getD "N/A")),
   ("publish_date", MetaValue.str (match article.publish_date with
     | some d => if d.isEmpty then "N/A" else d
     | none => "N/A")),
   ("section", MetaValue.str (article.sec.getD "N/A"))]

/-- The body of the `for article in articles` loop of `process_articles`
(`pipeline.py` lines 36–61): skip articles with falsy text, clean, split,
and append one `Document` per chunk carrying `{**metadata, 'chunk_index': i}`. -/
def processStep (split : String → List String) (all_documents : List Document)
    (article : Article) : List Document :=
  match article.text with
  | none => all_documents
  | some t =>
    if t.isEmpty then all_documents
    else
      let cleaned_text := clean_text t
      let metadata := chunkMetadata article
      let chunks := split cleaned_text
      chunks.enum.foldl (fun docs ic =>
        docs ++ [{ page_content := ic.2,
                   metadata := metadata ++ [("chunk_index", MetaValue.int ic.1)] }])
        all_documents

/-- `DataProcessor.process_articles` (`pipeline.py` lines 24–64),
parameterised by the external splitter. -/
def process_articles (split : String → List String) (articles : List Article) :
    List Document :=
  articles.foldl (processStep split) []

/-- The chunks contributed by one article: declarative form of `processStep`
used to state grouping and ordering properties. -/
def articleDocs (split : String → List String) (article : Article) : List Document :=
  match article.text with
  | none => []
  | some t =>
    if t.isEmpty then []
    else
      (split (clean_text t)).enum.map (fun ic =>
        { page_content := ic.2,
          metadata := chunkMetadata article ++ [("chunk_index", MetaValue.int ic.1)] })

lemma foldl_append_singleton {α β : Type} (f : α → β) :
    ∀ (l : List α) (acc : List β),
      l.foldl (fun ds x => ds ++ [f x]) acc = acc ++ l.map f := by
  intro l
  induction l with
  | nil => intro acc; simp
  | cons x t ih => intro acc; simp [ih]

lemma processStep_eq (split : String → List String) (acc : List Document)
    (article : Article) :
    processStep split acc article = acc ++ articleDocs split article := by
  unfold processStep articleDocs
  cases article.text with
  | none => simp
  | some t =>
    by_cases h : t.isEmpty <;> simp [h, foldl_append_singleton]

lemma process_articles_foldl (split : String → List String) :
    ∀ (articles : List Article) (acc : List Document),
      articles.foldl (processStep split) acc =
        acc ++ (articles.map (articleDocs split)).flatten := by
  intro articles
  induction articles with
  | nil => intro acc; simp
  | cons a t ih => intro acc; simp [processStep_eq, ih]

lemma lookup_chunk_index (article : Article) (v : MetaValue) :
    (chunkMetadata article ++ [("chunk_index", v)]).lookup "chunk_index" = some v := by
  rfl

/-- C5: the output of `process_articles` is the concatenation, in input
order, of each article's chunk list (itself in document order), and within
one article the attached `chunk_index` values are exactly `0, 1, 2, …` with
no gaps. -/
theorem C5_chunk_grouping_and_indices (split : String → List String)
    (articles : List Article) :
    process_articles split articles = (articles.map (articleDocs split)).flatten ∧
    ∀ article : Article,
      (articleDocs split article).map (fun d => d.metadata.lookup "chunk_index") =
        (List.range (articleDocs split article).length).map
          (fun i => some (MetaValue.int i)) := by
  constructor
  · unfold process_articles
    simpa using process_articles_foldl split articles []
  · intro article
    unfold articleDocs
    cases article.text with
    | none => simp
    | some t =>
      by_cases h : t.isEmpty
      · simp [h]
      · simp only [h, Bool.false_eq_true, if_false, List.map_map, List.length_map,
          List.enum_length]
        rw [← List.enum_map_fst (split (clean_text t)), List.map_map]
        apply List.map_congr_left
        intro ic _
        simp [Function.comp, lookup_chunk_index]

lemma mem_articleDocs (split : String → List String) (article : Article)
    (d : Document) (hd : d ∈ articleDocs split article) :
    ∃ i, d.metadata = chunkMetadata article ++ [("chunk_index", MetaValue.int i)] := by
  unfold articleDocs at hd
  cases ht : article.text with
  | none => simp [ht] at hd
  | some t =>
    simp only [ht] at hd
    by_cases h : t.isEmpty
    · simp [h] at hd
    · simp only [h, Bool.false_eq_true, if_false, List.mem_map] at hd
      obtain ⟨ic, _, rfl⟩ := hd
      exact ⟨ic.1, rfl⟩

lemma chunkMetadata_values (article : Article) (k : String) (v : MetaValue)
    (h : (k, v) ∈ chunkMetadata article) :
    MetaValue.isStr v = true ∧ k ≠ "chunk_index" := by
  simp only [chunkMetadata, List.mem_cons, List.mem_singleton, Prod.mk.injEq,
    List.not_mem_nil, or_false] at h
  rcases h with ⟨rfl, rfl⟩ | ⟨rfl, rfl⟩ | ⟨rfl, rfl⟩ | ⟨rfl, rfl⟩ | ⟨rfl, rfl⟩ <;>
    exact ⟨rfl, by decide⟩

lemma lookup_publish_date (article : Article) (v : MetaValue) :
    (chunkMetadata article ++ [("chunk_index", v)]).lookup "publish_date" =
      some (MetaValue.str (match article.publish_date with
        | some d => if d.isEmpty then "N/A" else d
        | none => "N/A")) := rfl

/-- C2 (amended): every value in a chunk's metadata map is a non-null scalar;
the `chunk_index` value is an integer (not a string), and every other value —
`title`, `source`, `url`, `publish_date`, `section` — is a string, with a
missing optional field (e.g. an absent publish date) represented as the
literal string `"N/A"`. -/
theorem C2_metadata_scalar_amended (split : String → List String)
    (articles : List Article) :
    (∀ d ∈ process_articles split articles,
      (∀ kv ∈ d.metadata, kv.2 ≠ MetaValue.null) ∧
      (∃ i, d.metadata.lookup "chunk_index" = some (MetaValue.int i)) ∧
      (∀ kv ∈ d.metadata, kv.1 ≠ "chunk_index" → MetaValue.isStr kv.2 = true)) ∧
    (∀ article : Article, article.publish_date = none →
      ∀ d ∈ articleDocs split article,
        d.metadata.lookup "publish_date" = some (MetaValue.str "N/A")) := by
  constructor
  · intro d hd
    have hflat : process_articles split articles =
        (articles.map (articleDocs split)).flatten := by
      unfold process_articles
      simpa using process_articles_foldl split articles []
    rw [hflat, List.mem_flatten] at hd
    obtain ⟨l, hl, hdl⟩ := hd
    rw [List.mem_map] at hl
    obtain ⟨a, _, rfl⟩ := hl
    obtain ⟨i, hmeta⟩ := mem_articleDocs split a d hdl
    refine ⟨?_, ⟨i, ?_⟩, ?_⟩
    · intro kv hkv
      rw [hmeta] at hkv
      obtain ⟨k, v⟩ := kv
      rcases List.mem_append.mp hkv with h | h
      · have := (chunkMetadata_values a k v h).1
        cases v <;> simp_all [MetaValue.isStr]
      · simp only [List.mem_singleton, Prod.mk.injEq] at h
        rw [h.2]
        simp
    · rw [hmeta]
      exact lookup_chunk_index a _
    · intro kv hkv hne
      rw [hmeta] at hkv
      obtain ⟨k, v⟩ := kv
      rcases List.mem_append.mp hkv with h | h
      · exact (chunkMetadata_values a k v h).1
      · simp only [List.mem_singleton, Prod.mk.injEq] at h
        exact absurd h.1 hne
  · intro article hp d hd
    obtain ⟨i, hmeta⟩ := mem_articleDocs split article d hd
    rw [hmeta, lookup_publish_date, hp]

/-- Modelled behaviour of the external `RecursiveCharacterTextSplitter` on a
text no longer than the configured chunk size: the whole text is returned as
a single chunk.  Used only to instantiate the abstract splitter parameter at
concrete inputs. -/
def split_single (s : String) : List String := [s]

/-- A concrete scraped article with no publish date. -/
def artEx : Article :=
  { url := some "http://example.com/a", title := some "Markets rally",
    text := some "Stocks rose.", publish_date := none,
    scraped_at := some "2025-01-01T00:00:00", source := some "Reuters",
    sec := some "markets" }

/-- Counterexample to C2 as stated: the chunk produced from `artEx` carries
the metadata entry `("chunk_index", 0)`, whose value is an integer, so not
every metadata value is a string. -/
theorem C2_counterexample_chunk_index_not_string :
    ¬ (∀ d ∈ process_articles split_single [artEx], ∀ kv ∈ d.metadata,
        MetaValue.isStr kv.2 = true) := by decide

/-- The single document produced from `artEx`. -/
def docEx : Document :=
  { page_content := "Stocks rose.",
    metadata := [("title", MetaValue.str "Markets rally"),
                 ("source", MetaValue.str "Reuters"),
                 ("url", MetaValue.str "http://example.com/a"),
                 ("publish_date", MetaValue.str "N/A"),
                 ("section", MetaValue.str "markets"),
                 ("chunk_index", MetaValue.int 0)] }

/-- Witness for C2 (amended) at the concrete article `artEx`. -/
theorem C2_metadata_scalar_amended_witness :
    (∀ kv ∈ docEx.metadata, kv.2 ≠ MetaValue.null) ∧
    (∃ i, docEx.metadata.lookup "chunk_index" = some (MetaValue.int i)) ∧
    (∀ kv ∈ docEx.metadata, kv.1 ≠ "chunk_index" → MetaValue.isStr kv.2 = true) :=
  (C2_metadata_scalar_amended split_single [artEx]).1 docEx (by decide)

/-! ## Retrieval engine: citation deduplication and streaming (`core.py`)

A retrieved source document enters the citation block through
`doc.metadata['title']` and `doc.metadata['url']`; both keys are always set
by the ingestion pipeline, so a retrieved document is modelled as a record
with those two fields.  The Python dict comprehension
`{doc.metadata['url']: doc for doc in source_documents}` (`core.py` line 167)
keeps keys in first-insertion order but overwrites the value on every repeat
of a key; `upsertByUrl`/`dedupByUrl` reproduce exactly that. -/

/-- A retrieved source document as consumed by the citation block. -/
structure SourceDoc where
  title : String
  url : String
deriving DecidableEq

/-- One step of building the Python dict keyed by URL: a repeated key
overwrites the stored value in place, a fresh key is appended. -/
def upsertByUrl (acc : List SourceDoc) (d : SourceDoc) : List SourceDoc :=
  if acc.any (fun e => decide (e.url = d.url)) then
    acc.map (fun e => if e.url = d.url then d else e)
  else acc ++ [d]

/-- `list({doc.metadata['url']: doc for doc in docs}.values())` (`core.py`
line 167). -/
def dedupByUrl (docs : List SourceDoc) : List SourceDoc :=
  docs.foldl upsertByUrl []

/-- Spec-side characterisation: the distinct elements of a list in order of
first occurrence (`seen` collects the values already emitted). -/
def firstSeenAux (seen : List String) : List String → List String
  | [] => []
  | u :: us => if u ∈ seen then firstSeenAux seen us else u :: firstSeenAux (u :: seen) us

/-- The distinct URLs of a list in first-seen order. -/
def firstSeenUrls (urls : List String) : List String := firstSeenAux [] urls

/-- The last document of `docs` whose URL is `u`, if any. -/
def lastWithUrl (u : String) (docs : List SourceDoc) : Option SourceDoc :=
  docs.foldl (fun r d => if d.url = u then some d else r) none

lemma dedupByUrl_append (docs : List SourceDoc) (e : SourceDoc) :
    dedupByUrl (docs ++ [e]) = upsertByUrl (dedupByUrl docs) e := by
  unfold dedupByUrl
  rw [List.foldl_append]
  rfl

lemma map_url_upsertByUrl (acc : List SourceDoc) (e : SourceDoc) :
    (upsertByUrl acc e).map SourceDoc.url =
      if e.url ∈ acc.map SourceDoc.url then acc.map SourceDoc.url
      else acc.map SourceDoc.url ++ [e.url] := by
  unfold upsertByUrl
  by_cases h : e.url ∈ acc.map SourceDoc.url
  · obtain ⟨x, hx, hxu⟩ := List.mem_map.mp h
    have hany : (acc.any fun e2 => decide (e2.url = e.url)) = true :=
      List.any_eq_true.mpr ⟨x, hx, by simp [hxu]⟩
    rw [if_pos hany, if_pos h, List.map_map]
    apply List.map_congr_left
    intro a _
    by_cases ha : a.url = e.url
    · simp [Function.comp, ha]
    · simp [Function.comp, ha]
  · have hany : (acc.any fun e2 => decide (e2.url = e.url)) = false := by
      rw [List.any_eq_false]
      intro x hx
      simp only [decide_eq_true_eq]
      intro hxe
      exact h (List.mem_map.mpr ⟨x, hx, hxe⟩)
    rw [if_neg (by simp [hany]), if_neg h, List.map_append]
    rfl

lemma mem_firstSeenAux : ∀ (l seen : List String) (x : String),
    x ∈ firstSeenAux seen l ↔ (x ∈ l ∧ x ∉ seen) := by
  intro l
  induction l with
  | nil =>
    intro seen x
    simp [firstSeenAux]
  | cons y t ih =>
    intro seen x
    have hEq : firstSeenAux seen (y :: t) =
        if y ∈ seen then firstSeenAux seen t
        else y :: firstSeenAux (y :: seen) t := rfl
    rw [hEq]
    by_cases hy : y ∈ seen
    · rw [if_pos hy, ih seen x]
      constructor
      · rintro ⟨hx, hxs⟩
        exact ⟨List.mem_cons_of_mem y hx, hxs⟩
      · rintro ⟨hmem, hxs⟩
        rcases List.mem_cons.mp hmem with rfl | hx
        · exact absurd hy hxs
        · exact ⟨hx, hxs⟩
    · rw [if_neg hy]
      constructor
      · intro hmem
        rcases List.mem_cons.mp hmem with rfl | hmem2
        · exact ⟨List.mem_cons_self x t, hy⟩
        · obtain ⟨hx, hxs⟩ := (ih (y :: seen) x).mp hmem2
          exact ⟨List.mem_cons_of_mem y hx, fun hs => hxs (List.mem_cons_of_mem y hs)⟩
      · rintro ⟨hmem, hxs⟩
        rcases List.mem_cons.mp hmem with rfl | hx
        · exact List.mem_cons_self x _
        · by_cases hxy : x = y
          · subst hxy
            exact List.mem_cons_self x _
          · refine List.mem_cons_of_mem y ((ih (y :: seen) x).mpr ⟨hx, fun hmem2 => ?_⟩)
            rcases List.mem_cons.mp hmem2 with h1 | h1
            · exact hxy h1
            · exact hxs h1

lemma firstSeenAux_append_singleton (u : String) :
    ∀ (l seen : List String),
      firstSeenAux seen (l ++ [u]) =
        firstSeenAux seen l ++ (if u ∈ seen ∨ u ∈ l then [] else [u]) := by
  intro l
  induction l with
  | nil =>
    intro seen
    by_cases hu : u ∈ seen <;> simp [firstSeenAux, hu]
  | cons x t ih =>
    intro seen
    have hL : firstSeenAux seen ((x :: t) ++ [u]) =
        if x ∈ seen then firstSeenAux seen (t ++ [u])
        else x :: firstSeenAux (x :: seen) (t ++ [u]) := rfl
    have hR : firstSeenAux seen (x :: t) =
        if x ∈ seen then firstSeenAux seen t
        else x :: firstSeenAux (x :: seen) t := rfl
    rw [hL, hR]
    by_cases hx : x ∈ seen
    · rw [if_pos hx, if_pos hx, ih seen]
      congr 1
      apply if_congr _ rfl rfl
      simp only [List.mem_cons]
      constructor
      · rintro (h | h)
        exacts [Or.inl h, Or.inr (Or.inr h)]
      · rintro (h | rfl | h)
        exacts [Or.inl h, Or.inl hx, Or.inr h]
    · rw [if_neg hx, if_neg hx, ih (x :: seen), List.cons_append]
      congr 1
      congr 1
      apply if_congr _ rfl rfl
      simp only [List.mem_cons]
      tauto

lemma firstSeenAux_nodup_notmem : ∀ (l seen : List String),
    (firstSeenAux seen l).Nodup ∧ ∀ x ∈ firstSeenAux seen l, x ∉ seen := by
  intro l
  induction l with
  | nil =>
    intro seen
    simp [firstSeenAux]
  | cons x t ih =>
    intro seen
    simp only [firstSeenAux]
    by_cases hx : x ∈ seen
    · rw [if_pos hx]
      exact ih seen
    · rw [if_neg hx]
      obtain ⟨hnd, hnm⟩ := ih (x :: seen)
      refine ⟨List.nodup_cons.mpr ⟨fun hmem => hnm x hmem (List.mem_cons_self x seen), hnd⟩, ?_⟩
      intro y hy
      rcases List.mem_cons.mp hy with rfl | hy2
      · exact hx
      · exact fun hys => hnm y hy2 (List.mem_cons_of_mem x hys)

lemma dedupByUrl_spec (docs : List SourceDoc) :
    (dedupByUrl docs).map SourceDoc.url = firstSeenUrls (docs.map SourceDoc.url) ∧
    ∀ d ∈ dedupByUrl docs, lastWithUrl d.url docs = some d := by
  induction docs using List.reverseRecOn with
  | nil =>
    constructor
    · rfl
    · intro d hd
      simp [dedupByUrl] at hd
  | append_singleton l e ih =>
    obtain ⟨ihu, ihl⟩ := ih
    rw [dedupByUrl_append]
    have hlast : ∀ u, lastWithUrl u (l ++ [e]) =
        if e.url = u then some e else lastWithUrl u l := by
      intro u
      unfold lastWithUrl
      rw [List.foldl_append]
      rfl
    constructor
    · rw [map_url_upsertByUrl, List.map_append]
      simp only [List.map_cons, List.map_nil]
      rw [ihu]
      unfold firstSeenUrls
      rw [firstSeenAux_append_singleton]
      have hmemiff : e.url ∈ firstSeenAux [] (l.map SourceDoc.url) ↔
          e.url ∈ l.map SourceDoc.url := by
        rw [mem_firstSeenAux]
        simp
      by_cases h : e.url ∈ l.map SourceDoc.url
      · rw [if_pos (hmemiff.mpr h), if_pos (by simp [h])]
        simp
      · rw [if_neg (fun hc => h (hmemiff.mp hc)), if_neg (by simp [h])]
    · intro d hd
      unfold upsertByUrl at hd
      by_cases hmem : ((dedupByUrl l).any fun e2 => decide (e2.url = e.url)) = true
      · rw [if_pos hmem, List.mem_map] at hd
        obtain ⟨d0, hd0, rfl⟩ := hd
        by_cases hde : d0.url = e.url
        · simp only [if_pos hde]
          rw [hlast]
          simp
        · simp only [if_neg hde]
          rw [hlast, if_neg (fun hc => hde hc.symm)]
          exact ihl d0 hd0
      · rw [if_neg (by simp_all)] at hd
        rcases List.mem_append.mp hd with h | h
        · have hne : e.url ≠ d.url := by
            intro heq
            exact hmem (List.any_eq_true.mpr ⟨d, h, by simp [heq.symm]⟩)
          rw [hlast, if_neg hne]
          exact ihl d h
        · rw [List.mem_singleton] at h
          subst h
          rw [hlast]
          simp

/-- C1 (amended): the citation list emitted after the answer stream contains
exactly one entry per distinct URL, in first-seen URL order, but for each URL
the retained title/url are those of the LAST-seen chunk with that URL (the
Python dict comprehension overwrites on key repetition), not the first-seen;
for three retrieved chunks with URLs {A, A, B} the emitted list has exactly
2 entries. -/
theorem C1_citation_dedup_amended (docs : List SourceDoc) :
    (dedupByUrl docs).map SourceDoc.url = firstSeenUrls (docs.map SourceDoc.url) ∧
    ((dedupByUrl docs).map SourceDoc.url).Nodup ∧
    (∀ d ∈ dedupByUrl docs, lastWithUrl d.url docs = some d) ∧
    (dedupByUrl [⟨"t1", "A"⟩, ⟨"t2", "A"⟩, ⟨"t3", "B"⟩]).length = 2 := by
  obtain ⟨hu, hl⟩ := dedupByUrl_spec docs
  exact ⟨hu, by rw [hu]; exact (firstSeenAux_nodup_notmem _ []).1, hl, by decide⟩

/-- Witness for C1 (amended): on the chunk list with URLs {A, A, B}, the
citation retained for URL "A" is the last-seen chunk `("t2", "A")`. -/
theorem C1_citation_dedup_amended_witness :
    lastWithUrl "A" [⟨"t1", "A"⟩, ⟨"t2", "A"⟩, ⟨"t3", "B"⟩] =
      some (SourceDoc.mk "t2" "A") :=
  (C1_citation_dedup_amended [⟨"t1", "A"⟩, ⟨"t2", "A"⟩, ⟨"t3", "B"⟩]).2.2.1
    (SourceDoc.mk "t2" "A") (by decide)

/-- Counterexample to C1 as stated: with two chunks sharing URL "A" under
different titles, the first-seen chunk `("t1", "A")` is NOT retained — the
deduplicated list keeps the last-seen `("t2", "A")` instead. -/
theorem C1_counterexample_first_seen_not_retained :
    dedupByUrl [⟨"t1", "A"⟩, ⟨"t2", "A"⟩, ⟨"t3", "B"⟩] =
      [⟨"t2", "A"⟩, ⟨"t3", "B"⟩] ∧
    (SourceDoc.mk "t1" "A") ∉ dedupByUrl [⟨"t1", "A"⟩, ⟨"t2", "A"⟩, ⟨"t3", "B"⟩] := by
  decide

/-- One streamed chunk of `chain.astream` output (`core.py` lines 158–162):
a dict that may carry an `"answer"` increment and/or a `"source_documents"`
list; `none` models an absent key. -/
structure StreamChunk where
  answer : Option String := none
  source_documents : Option (List SourceDoc) := none

/-- The body of the `async for chunk in chain.astream(...)` loop (`core.py`
lines 158–162): yield the answer increment if present, accumulate the source
documents if present.  The pair carries (yields so far, accumulated docs). -/
def streamLoopStep (acc : List String × List SourceDoc) (c : StreamChunk) :
    List String × List SourceDoc :=
  (match c.answer with
   | some a => acc.1 ++ [a]
   | none => acc.1,
   match c.source_documents with
   | some ds => acc.2 ++ ds
   | none => acc.2)

/-- One line of the citation block (`core.py` line 172):
`f"{i}. [{title}]({url})\n"`.  (The `.get` defaults `'Unknown Title'`/`'#'`
never fire for documents ingested by this pipeline, which always sets both
keys.) -/
def citation_line (i : Nat) (d : SourceDoc) : String :=
  toString i ++ ". [" ++ d.title ++ "](" ++ d.url ++ ")\n"

/-- The `sources_text` string built at `core.py` lines 166–172: the separator
followed by one numbered line per URL-deduplicated document, numbering from 1. -/
def sources_text (docs : List SourceDoc) : String :=
  "\n\n---\n**Sources:**\n" ++
    String.join ((dedupByUrl docs).enum.map (fun p => citation_line (p.1 + 1) p.2))

/-- The full sequence of strings yielded by `stream_query` (`core.py` lines
157–173): the answer increments in order, then — only when at least one
source document was accumulated — the formatted `sources_text`. -/
def stream_query_outputs (chunks : List StreamChunk) : List String :=
  let acc := chunks.foldl streamLoopStep ([], [])
  if acc.2.isEmpty then acc.1 else acc.1 ++ [sources_text acc.2]

lemma streamLoop_foldl : ∀ (chunks : List StreamChunk) (outs : List String)
    (docs : List SourceDoc),
    chunks.foldl streamLoopStep (outs, docs) =
      (outs ++ chunks.filterMap StreamChunk.answer,
       docs ++ (chunks.filterMap StreamChunk.source_documents).flatten) := by
  intro chunks
  induction chunks with
  | nil =>
    intro outs docs
    simp
  | cons c t ih =>
    intro outs docs
    simp only [List.foldl_cons, streamLoopStep, List.filterMap_cons]
    cases c.answer <;> cases c.source_documents <;> simp [ih]

lemma string_join_append (l1 l2 : List String) :
    String.join (l1 ++ l2) = String.join l1 ++ String.join l2 := by
  rw [String.join_eq, String.join_eq, String.join_eq]
  show String.mk _ = String.mk _
  rw [List.map_append, List.flatten_append]

lemma string_join_singleton (s : String) : String.join [s] = s := by
  rw [String.join_eq]
  show String.mk (s.data ++ []) = s
  rw [List.append_nil]

/-- C9: the concatenation of the streamed increments is the concatenated
answer text, followed — only if at least one source chunk was accumulated,
and otherwise by nothing — by `sources_text`, which is the separator
`"\n\n---\n**Sources:**\n"` followed by the numbered Markdown link lines
`citation_line i d = "i. [title](url)\n"` for `i = 1, …, n` over the
URL-deduplicated documents. -/
theorem C9_stream_concatenation (chunks : List StreamChunk) :
    String.join (stream_query_outputs chunks) =
      String.join (chunks.filterMap StreamChunk.answer) ++
        (if ((chunks.filterMap StreamChunk.source_documents).flatten).isEmpty then ""
         else sources_text ((chunks.filterMap StreamChunk.source_documents).flatten)) ∧
    ∀ docs : List SourceDoc,
      sources_text docs =
        "\n\n---\n**Sources:**\n" ++
          String.join (List.zipWith citation_line
            (List.range' 1 (dedupByUrl docs).length) (dedupByUrl docs)) := by
  constructor
  · unfold stream_query_outputs
    rw [streamLoop_foldl chunks [] []]
    simp only [List.nil_append]
    by_cases h : ((chunks.filterMap StreamChunk.source_documents).flatten).isEmpty
    · rw [if_pos h, if_pos h]
      show _ = String.join _ ++ String.mk []
      rw [String.append_empty]
    · rw [if_neg h, if_neg h, string_join_append, string_join_singleton]
  · intro docs
    unfold sources_text
    congr 1
    congr 1
    have key : ∀ (l : List SourceDoc) (n : Nat),
        (List.enumFrom n l).map (fun p => citation_line (p.1 + 1) p.2) =
          List.zipWith citation_line (List.range' (n + 1) l.length) l := by
      intro l
      induction l with
      | nil =>
        intro n
        simp
      | cons x t ih =>
        intro n
        have hE : List.enumFrom n (x :: t) = (n, x) :: List.enumFrom (n + 1) t := rfl
        rw [hE, List.map_cons, ih (n + 1), List.length_cons, List.range'_succ,
          List.zipWith_cons_cons]
    exact key (dedupByUrl docs) 0

/-! ## Database stats (`core.py`, lines 43–57)

The Chroma collection is an external capability: its `count()` and
`get(include=["metadatas"])` calls may raise, which is modelled by
`Except String` results.  Only the `'source'` key of each stored metadata
dict is consulted, and its values are strings, so stored metadatas are
modelled as `String × String` association lists.  Python's `sorted` on
strings is ascending lexicographic comparison by code point, modelled by
`lexLe`. -/

/-- Lexicographic `≤` on character lists by code point (Python string
comparison). -/
def lexLe : List Char → List Char → Bool
  | [], _ => true
  | _ :: _, [] => false
  | x :: xs, y :: ys => if x = y then lexLe xs ys else decide (x < y)

/-- Python's `<=` on strings. -/
def pyStrLe (a b : String) : Bool := lexLe a.toList b.toList

lemma lexLe_total : ∀ a b : List Char, (lexLe a b || lexLe b a) = true := by
  intro a
  induction a with
  | nil =>
    intro b
    simp [lexLe]
  | cons x xs ih =>
    intro b
    cases b with
    | nil => simp [lexLe]
    | cons y ys =>
      by_cases h : x = y
      · subst h
        simp only [lexLe, if_pos rfl]
        exact ih ys
      · simp only [lexLe, if_neg h, if_neg (Ne.symm h)]
        rcases lt_or_gt_of_ne h with hlt | hgt
        · simp [hlt]
        · simp [hgt]

lemma lexLe_trans : ∀ a b c : List Char,
    lexLe a b = true → lexLe b c = true → lexLe a c = true := by
  intro a
  induction a with
  | nil =>
    intro b c _ _
    simp [lexLe]
  | cons x xs ih =>
    intro b c hab hbc
    cases b with
    | nil => simp [lexLe] at hab
    | cons y ys =>
      cases c with
      | nil => simp [lexLe] at hbc
      | cons z zs =>
        by_cases hxy : x = y
        · subst hxy
          rw [lexLe, if_pos rfl] at hab
          by_cases hxz : x = z
          · subst hxz
            rw [lexLe, if_pos rfl] at hbc ⊢
            exact ih ys zs hab hbc
          · rw [lexLe, if_neg hxz] at hbc ⊢
            exact hbc
        · rw [lexLe, if_neg hxy] at hab
          have hxyl : x < y := by simpa using hab
          by_cases hyz : y = z
          · subst hyz
            rw [lexLe, if_neg hxy]
            simpa using hxyl
          · rw [lexLe, if_neg hyz] at hbc
            have hyzl : y < z := by simpa using hbc
            have hxzl : x < z := lt_trans hxyl hyzl
            rw [lexLe, if_neg (ne_of_lt hxzl)]
            simpa using hxzl

lemma pyStrLe_total (a b : String) : (pyStrLe a b || pyStrLe b a) = true :=
  lexLe_total a.toList b.toList

lemma pyStrLe_trans (a b c : String) :
    pyStrLe a b = true → pyStrLe b c = true → pyStrLe a c = true :=
  lexLe_trans a.toList b.toList c.toList

/-- The result of `get_db_stats`. -/
structure DBStats where
  total_documents : Nat
  sources : List String
deriving DecidableEq

/-- The two collection calls made by `get_db_stats`
(`self.vectorstore._collection.count()` and
`.get(include=["metadatas"])`), each of which may raise. -/
structure CollectionOps where
  count : Except String Nat
  getMetadatas : Except String (List (List (String × String)))

/-- `meta.get('source', 'Unknown')` (`core.py` line 53). -/
def statSource (meta : List (String × String)) : String :=
  (meta.lookup "source").getD "Unknown"

/-- `RAGEngine.get_db_stats` (`core.py` lines 43–57): return the stored
entry count and the sorted distinct source values; on any exception return
zero documents and no sources.  `list(set(...))` is modelled by `dedup`,
`sorted(...)` by `mergeSort pyStrLe`. -/
def get_db_stats (c : CollectionOps) : DBStats :=
  match c.count with
  | .error _ => { total_documents := 0, sources := [] }
  | .ok count =>
    match c.getMetadatas with
    | .error _ => { total_documents := 0, sources := [] }
    | .ok metadatas =>
      { total_documents := count,
        sources := ((metadatas.map statSource).dedup).mergeSort pyStrLe }

/-- C6: `get_db_stats` returns the stored entry count together with the
sorted list of distinct source metadata values, and whenever either
underlying collection query raises it returns
`{total_documents: 0, sources: []}` instead of propagating the error. -/
theorem C6_get_db_stats_contract (c : CollectionOps) :
    (∀ e, c.count = .error e →
      get_db_stats c = { total_documents := 0, sources := [] }) ∧
    (∀ e, c.getMetadatas = .error e →
      get_db_stats c = { total_documents := 0, sources := [] }) ∧
    (∀ n ms, c.count = .ok n → c.getMetadatas = .ok ms →
      (get_db_stats c).total_documents = n ∧
      List.Pairwise (fun a b => pyStrLe a b = true) (get_db_stats c).sources ∧
      (get_db_stats c).sources.Nodup ∧
      ∀ s, (s ∈ (get_db_stats c).sources ↔ s ∈ ms.map statSource)) := by
  refine ⟨?_, ?_, ?_⟩
  · intro e he
    unfold get_db_stats
    rw [he]
  · intro e he
    unfold get_db_stats
    cases hc : c.count with
    | error e2 => rfl
    | ok n => rw [he]
  · intro n ms hn hms
    unfold get_db_stats
    rw [hn, hms]
    refine ⟨rfl, ?_, ?_, ?_⟩
    · exact List.sorted_mergeSort
        (fun a b c2 => pyStrLe_trans a b c2) (fun a b => pyStrLe_total a b) _
    · exact ((List.mergeSort_perm _ _).nodup_iff).mpr (List.nodup_dedup _)
    · intro s
      rw [(List.mergeSort_perm _ _).mem_iff, List.mem_dedup]

/-- A concrete healthy collection with two entries from sources "B" and "A". -/
def collOk : CollectionOps :=
  { count := .ok 2,
    getMetadatas := .ok [[("source", "B")], [("source", "A")]] }

/-- Witness for C6 at `collOk`: count 2, sorted/nodup sources matching the
stored source values. -/
theorem C6_get_db_stats_contract_witness :
    (get_db_stats collOk).total_documents = 2 ∧
    List.Pairwise (fun a b => pyStrLe a b = true) (get_db_stats collOk).sources ∧
    (get_db_stats collOk).sources.Nodup ∧
    ∀ s, (s ∈ (get_db_stats collOk).sources ↔
      s ∈ [[("source", "B")], [("source", "A")]].map statSource) :=
  (C6_get_db_stats_contract collOk).2.2 2 [[("source", "B")], [("source", "A")]] rfl rfl

/-- C10: if some stored entry's metadata lacks a `'source'` key, the sources
list returned by `get_db_stats` contains the literal string `"Unknown"` — a
value that need not be the source name of any ingested chunk. -/
theorem C10_unknown_source_in_stats (c : CollectionOps) (n : Nat)
    (ms : List (List (String × String))) (m : List (String × String))
    (hn : c.count = .ok n) (hms : c.getMetadatas = .ok ms)
    (hm : m ∈ ms) (hs : m.lookup "source" = none) :
    "Unknown" ∈ (get_db_stats c).sources := by
  unfold get_db_stats
  rw [hn, hms]
  show "Unknown" ∈ ((ms.map statSource).dedup).mergeSort pyStrLe
  rw [(List.mergeSort_perm _ _).mem_iff, List.mem_dedup]
  exact List.mem_map.mpr ⟨m, hm, by simp [statSource, hs]⟩

/-- A collection holding one entry whose metadata has no `'source'` key. -/
def collNoSource : CollectionOps :=
  { count := .ok 1, getMetadatas := .ok [[("title", "Untitled")]] }

/-- Witness for C10 at `collNoSource`. -/
theorem C10_unknown_source_in_stats_witness :
    "Unknown" ∈ (get_db_stats collNoSource).sources :=
  C10_unknown_source_in_stats collNoSource 1 [[("title", "Untitled")]]
    [("title", "Untitled")] rfl rfl (by decide) (by decide)

/-! ## Retrieval source filter (`core.py`, lines 109–117 and 144–155)

`stream_query` builds `filters = {"source": {"$in": sources}} if sources else
None` and `_get_conversational_chain` installs it in the retriever's
`search_kwargs` only when non-`None`.  The index backend's `$in` predicate —
an external capability — retains exactly the chunks whose `'source'`
metadata value lies in the given list; the retriever then selects some of
the retained chunks (top-K similarity), modelled as an arbitrary
subset-selection function. -/

/-- The filter value built at `core.py` lines 151–153: `None` or an empty
`sources` list (both falsy) yield no filter, a non-empty list yields the
`$in` list. -/
def build_filter (sources : Option (List String)) : Option (List String) :=
  match sources with
  | none => none
  | some ss => if ss.isEmpty then none else some ss

/-- The external index backend's `{"source": {"$in": allowed}}` predicate on
one stored chunk: true iff the chunk's `'source'` metadata value is a string
belonging to `allowed`. -/
def matches_source_filter (allowed : List String) (d : Document) : Bool :=
  match d.metadata.lookup "source" with
  | some (MetaValue.str s) => decide (s ∈ allowed)
  | _ => false

/-- Retrieval candidates after applying the (optional) metadata predicate:
with no filter the whole index is searched, otherwise only the chunks
retained by the predicate. -/
def retrieve_filtered (f : Option (List String)) (index : List Document) :
    List Document :=
  match f with
  | none => index
  | some allowed => index.filter (matches_source_filter allowed)

/-- C7: a non-empty `sources` list yields the `$in` predicate and every chunk
that any subset-selecting retriever can return from the filtered candidates
has its source in the list (in particular `sources=["Reuters"]` never yields
a `"Bloomberg"` chunk); `sources = None` or `[]` yields no predicate and the
search is unrestricted. -/
theorem C7_source_filter_contract :
    (build_filter none = none ∧ build_filter (some []) = none ∧
      ∀ index : List Document, retrieve_filtered (build_filter none) index = index) ∧
    (∀ ss : List String, ss ≠ [] → build_filter (some ss) = some ss) ∧
    (∀ (ss : List String) (index : List Document) (d : Document),
      ss ≠ [] → d ∈ retrieve_filtered (build_filter (some ss)) index →
      ∃ s, d.metadata.lookup "source" = some (MetaValue.str s) ∧ s ∈ ss) ∧
    (∀ (sel : List Document → List Document),
      (∀ l d, d ∈ sel l → d ∈ l) →
      ∀ (index : List Document) (d : Document),
        d ∈ sel (retrieve_filtered (build_filter (some ["Reuters"])) index) →
        d.metadata.lookup "source" ≠ some (MetaValue.str "Bloomberg")) := by
  have hmem : ∀ (ss : List String) (index : List Document) (d : Document),
      ss ≠ [] → d ∈ retrieve_filtered (build_filter (some ss)) index →
      ∃ s, d.metadata.lookup "source" = some (MetaValue.str s) ∧ s ∈ ss := by
    intro ss index d hne hd
    have hbf : build_filter (some ss) = some ss := by
      show (if ss.isEmpty then none else some ss : Option (List String)) = some ss
      rw [if_neg (by simpa using hne)]
    rw [hbf] at hd
    unfold retrieve_filtered at hd
    have hm := List.of_mem_filter hd
    unfold matches_source_filter at hm
    cases hl : d.metadata.lookup "source" with
    | none => rw [hl] at hm; simp at hm
    | some v =>
      cases v with
      | str s =>
        rw [hl] at hm
        simp only [decide_eq_true_eq] at hm
        exact ⟨s, rfl, hm⟩
      | int n => rw [hl] at hm; simp at hm
      | null => rw [hl] at hm; simp at hm
  refine ⟨⟨rfl, rfl, fun index => rfl⟩, ?_, hmem, ?_⟩
  · intro ss hne
    show (if ss.isEmpty then none else some ss : Option (List String)) = some ss
    rw [if_neg (by simpa using hne)]
  · intro sel hsel index d hd heq
    obtain ⟨s, hls, hsin⟩ :=
      hmem ["Reuters"] index d (by decide) (hsel _ d hd)
    rw [hls] at heq
    have : s = "Bloomberg" := by
      injection heq with h
      injection h
    subst this
    simp at hsin

/-- A "Reuters" chunk and a "Bloomberg" chunk as stored in the index. -/
def docReuters : Document :=
  { page_content := "Reuters story", metadata := [("source", MetaValue.str "Reuters")] }

/-- A "Bloomberg" chunk as stored in the index. -/
def docBloomberg : Document :=
  { page_content := "Bloomberg story", metadata := [("source", MetaValue.str "Bloomberg")] }

/-- Witness for C7: from an index holding a Reuters chunk and a Bloomberg
chunk, a chunk retrieved under `sources=["Reuters"]` has a source belonging
to `["Reuters"]`. -/
theorem C7_source_filter_contract_witness :
    ∃ s, docReuters.metadata.lookup "source" = some (MetaValue.str s) ∧
      s ∈ ["Reuters"] :=
  C7_source_filter_contract.2.2.1 ["Reuters"] [docReuters, docBloomberg] docReuters
    (by decide) (by decide)

/-! ## Scraper (`scraper.py`, lines 62–146)

The network/HTML layer is a capability (`ScrapeEnv`): `fetchSection`
fetches+parses one section page and returns the `href` attributes of its
`a[href]` links (whether fetched via `requests` or the Selenium driver);
`fetchArticle` is newspaper3k's download+parse.  Either may raise, modelled
by `Except String`.  Python exceptions escaping a function are modelled by an
`Except String` result; a `try/except` block is a `match` on such a value.
The Selenium driver is the one piece of mutable state: `none` = not created,
`some true` = created and live, `some false` = created and quit. -/

/-- `p` is a prefix of `s` (Python `str.startswith`). -/
def pyStartsWith (p s : String) : Bool := p.toList.isPrefixOf s.toList

/-- `re.search(r'/\d{6,}', href)`: some `'/'` is followed by at least six
digits. -/
def hasDigitRun6 : List Char → Bool
  | [] => false
  | '/' :: t => decide (6 ≤ (t.takeWhile Char.isDigit).length) || hasDigitRun6 t
  | _ :: t => hasDigitRun6 t

/-- The article-link test of `scraper.py` line 114:
`re.search(r'/\d{6,}|/news/|/article/|/opinion/|/story/', href)`. -/
def article_link_pattern (href : String) : Bool :=
  hasDigitRun6 href.toList || containsSub "/news/" href || containsSub "/article/" href ||
    containsSub "/opinion/" href || containsSub "/story/" href

/-- `urllib.parse.urljoin`, modelled coarsely: an absolute `href` is kept,
anything else is appended to the base.  (The claims under verification do
not depend on URL resolution details.) -/
def urljoin (base rel : String) : String :=
  if pyStartsWith "http://" rel || pyStartsWith "https://" rel then rel
  else base ++ rel

/-- The exclusion test of `scraper.py` line 117:
`any(x in full_url for x in ['/category/', '/author/', '/topic/'])`. -/
def excluded_url (u : String) : Bool :=
  containsSub "/category/" u || containsSub "/author/" u || containsSub "/topic/" u

/-- Link discovery of `scraper.py` lines 108–118: keep hrefs matching the
article pattern, resolve against the base URL, drop excluded URLs, and
deduplicate (`unique_urls` is a Python `set`, whose iteration order is
unspecified; first-seen order is the determinisation used here). -/
def discover_urls (base : String) (hrefs : List String) : List String :=
  (((hrefs.filter article_link_pattern).map (urljoin base)).filter
    (fun u => !excluded_url u)).eraseDups

/-- The result of newspaper3k's `download()` + `parse()` on one article URL. -/
structure ParsedArticle where
  title : String
  text : String
  publish_date : Option String := none
deriving DecidableEq

/-- The external fetch/render/parse capabilities used by the scraper, plus
the clock (`datetime.now().isoformat()`). -/
structure ScrapeEnv where
  fetchSection : String → Except String (List String)
  fetchArticle : String → Except String ParsedArticle
  now : String

/-- The scraper's mutable Selenium state (`self.selenium_driver`). -/
structure ScraperState where
  selenium_driver : Option Bool := none
deriving DecidableEq

/-- `FinancialNewsScraper._setup_selenium` (`scraper.py` lines 36–45):
create the headless driver only if none exists yet. -/
def setup_selenium (st : ScraperState) : ScraperState :=
  match st.selenium_driver with
  | none => { selenium_driver := some true }
  | some _ => st

/-- The `if self.selenium_driver: self.selenium_driver.quit()` epilogue of
`scrape_all` (`scraper.py` lines 142–143). -/
def quit_driver (st : ScraperState) : ScraperState :=
  match st.selenium_driver with
  | some _ => { selenium_driver := some false }
  | none => st

/-- Per-source configuration dict: `none` models an absent key, and the two
flags read through `.get(...)` default to false. -/
structure SourceConfig where
  base_url : Option String := none
  sections : Option (List String) := none
  requires_selenium : Bool := false
  scrape_enabled : Bool := false
deriving DecidableEq

/-- `FinancialNewsScraper._extract_article_content` (`scraper.py` lines
62–87): any fetch/parse exception and any validation rejection both yield
`None`; on success the article dict is built, the publish date defaulting to
the current time. -/
def extract_article_content (env : ScrapeEnv) (url : String) : Option Article :=
  match env.fetchArticle url with
  | .error _ => none
  | .ok parsed =>
    if is_relevant parsed.text parsed.title then
      some { url := some url, title := some parsed.title, text := some parsed.text,
             publish_date := some (parsed.publish_date.getD env.now),
             scraped_at := some env.now, source := none, sec := none }
    else none

/-- The body of the `for section in source_config['sections']` loop of
`_scrape_source` (`scraper.py` lines 95–131): set up Selenium when required,
fetch the section page (an exception skips the whole section), discover
links, and run the inner article loop appending each successfully extracted
article tagged with source and section. -/
def scrape_section_step (env : ScrapeEnv) (source_name : String)
    (cfg : SourceConfig) (base : String) (acc : List Article × ScraperState)
    (s : String) : List Article × ScraperState :=
  let articles := acc.1
  let st := if cfg.requires_selenium then setup_selenium acc.2 else acc.2
  match env.fetchSection (urljoin base s) with
  | .error _ => (articles, st)
  | .ok links =>
    ((((discover_urls base links).take 7).foldl (fun arts u =>
        match extract_article_content env u with
        | some a => arts ++ [{ a with source := some source_name, sec := some s }]
        | none => arts) articles), st)

/-- `FinancialNewsScraper._scrape_source` (`scraper.py` lines 89–133).  The
two subscript accesses `source_config['base_url']` and
`source_config['sections']` raise `KeyError` when absent — they sit outside
any `try`, so the error propagates. -/
def scrape_source (env : ScrapeEnv) (st : ScraperState) (source_name : String)
    (cfg : SourceConfig) : Except String (List Article) × ScraperState :=
  match cfg.base_url with
  | none => (.error "KeyError: base_url", st)
  | some base =>
    match cfg.sections with
    | none => (.error "KeyError: sections", st)
    | some secs =>
      let r := secs.foldl (scrape_section_step env source_name cfg base) ([], st)
      (.ok r.1, r.2)

/-- The loop of `scrape_all` (`scraper.py` lines 135–146) over the configured
sources: a propagating exception from `_scrape_source` aborts the loop before
the driver-quitting epilogue is reached; on normal completion the driver, if
any, is quit. -/
def scrape_all_loop (env : ScrapeEnv) :
    List (String × SourceConfig) → List Article → ScraperState →
    Except String (List Article) × ScraperState
  | [], all_articles, st => (.ok all_articles, quit_driver st)
  | (source_name, cfg) :: rest, all_articles, st =>
    if cfg.scrape_enabled then
      match scrape_source env st source_name cfg with
      | (.error e, st2) => (.error e, st2)
      | (.ok arts, st2) => scrape_all_loop env rest (all_articles ++ arts) st2
    else scrape_all_loop env rest all_articles st

/-- `FinancialNewsScraper.scrape_all` (`scraper.py` lines 135–146) on a
freshly constructed scraper (`self.selenium_driver = None`). -/
def scrape_all (env : ScrapeEnv) (sources : List (String × SourceConfig)) :
    Except String (List Article) × ScraperState :=
  scrape_all_loop env sources [] { selenium_driver := none }

/-- The articles one section contributes: declarative form of
`scrape_section_step`. -/
def sectionArticles (env : ScrapeEnv) (source_name : String) (base : String)
    (s : String) : List Article :=
  match env.fetchSection (urljoin base s) with
  | .error _ => []
  | .ok links =>
    ((discover_urls base links).take 7).filterMap (fun u =>
      (extract_article_content env u).map
        (fun a => { a with source := some source_name, sec := some s }))

lemma scrape_section_step_eq (env : ScrapeEnv) (source_name : String)
    (cfg : SourceConfig) (base : String) (arts : List Article)
    (st : ScraperState) (s : String) :
    scrape_section_step env source_name cfg base (arts, st) s =
      (arts ++ sectionArticles env source_name base s,
       if cfg.requires_selenium then setup_selenium st else st) := by
  have key : ∀ (urls : List String) (arts0 : List Article),
      urls.foldl (fun arts2 u =>
        match extract_article_content env u with
        | some a => arts2 ++ [{ a with source := some source_name, sec := some s }]
        | none => arts2) arts0
      = arts0 ++ urls.filterMap (fun u => (extract_article_content env u).map
          (fun a => { a with source := some source_name, sec := some s })) := by
    intro urls
    induction urls with
    | nil =>
      intro arts0
      simp
    | cons u t ih =>
      intro arts0
      simp only [List.foldl_cons, List.filterMap_cons]
      cases extract_article_content env u <;> simp [ih]
  unfold scrape_section_step sectionArticles
  cases h : env.fetchSection (urljoin base s) with
  | error e => simp [h]
  | ok links =>
    simp only [h]
    rw [key]

lemma scrape_sections_foldl (env : ScrapeEnv) (source_name : String)
    (cfg : SourceConfig) (base : String) :
    ∀ (secs : List String) (arts : List Article) (st : ScraperState),
      (secs.foldl (scrape_section_step env source_name cfg base) (arts, st)).1 =
        arts ++ secs.flatMap (sectionArticles env source_name base) := by
  intro secs
  induction secs with
  | nil =>
    intro arts st
    simp
  | cons s t ih =>
    intro arts st
    rw [List.foldl_cons, scrape_section_step_eq, ih, List.flatMap_cons,
      List.append_assoc]

lemma scrape_source_fst (env : ScrapeEnv) (st : ScraperState)
    (source_name : String) (cfg : SourceConfig) (base : String)
    (secs : List String) (hb : cfg.base_url = some base)
    (hs : cfg.sections = some secs) :
    (scrape_source env st source_name cfg).1 =
      .ok (secs.flatMap (sectionArticles env source_name base)) := by
  unfold scrape_source
  simp only [hb, hs]
  rw [scrape_sections_foldl]
  simp

/-- C8: with a well-formed source config, `_scrape_source` always returns
normally: its output is the per-section article lists concatenated in section
order, where a failing article fetch/parse (or a validation rejection) makes
only that article's extraction yield `None` and a failing section fetch makes
only that section contribute no articles; and a run over sources whose
enabled configs are well-formed always completes (`scrape_all` never
propagates a fetch failure). -/
theorem C8_failure_isolation (env : ScrapeEnv) (st : ScraperState)
    (source_name : String) (cfg : SourceConfig) (base : String)
    (secs : List String) (hb : cfg.base_url = some base)
    (hs : cfg.sections = some secs) :
    (scrape_source env st source_name cfg).1 =
      .ok (secs.flatMap (sectionArticles env source_name base)) ∧
    (∀ u e, env.fetchArticle u = .error e →
      extract_article_content env u = none) ∧
    (∀ s e, env.fetchSection (urljoin base s) = .error e →
      sectionArticles env source_name base s = []) ∧
    (∀ sources : List (String × SourceConfig),
      (∀ p ∈ sources, p.2.scrape_enabled = true →
        (∃ b, p.2.base_url = some b) ∧ ∃ ss, p.2.sections = some ss) →
      ∃ arts, (scrape_all env sources).1 = Except.ok arts) := by
  refine ⟨scrape_source_fst env st source_name cfg base secs hb hs, ?_, ?_, ?_⟩
  · intro u e he
    unfold extract_article_content
    rw [he]
  · intro s e he
    unfold sectionArticles
    rw [he]
  · have loop_ok : ∀ (sources : List (String × SourceConfig))
        (acc : List Article) (st0 : ScraperState),
        (∀ p ∈ sources, p.2.scrape_enabled = true →
          (∃ b, p.2.base_url = some b) ∧ ∃ ss, p.2.sections = some ss) →
        ∃ arts, (scrape_all_loop env sources acc st0).1 = Except.ok arts := by
      intro sources
      induction sources with
      | nil =>
        intro acc st0 _
        exact ⟨acc, rfl⟩
      | cons p rest ih =>
        intro acc st0 hwf
        obtain ⟨name, cfg2⟩ := p
        have hstep : scrape_all_loop env ((name, cfg2) :: rest) acc st0 =
            if cfg2.scrape_enabled then
              match scrape_source env st0 name cfg2 with
              | (.error e, st2) => (.error e, st2)
              | (.ok arts, st2) => scrape_all_loop env rest (acc ++ arts) st2
            else scrape_all_loop env rest acc st0 := rfl
        rw [hstep]
        by_cases hen : cfg2.scrape_enabled = true
        · rw [if_pos hen]
          obtain ⟨⟨b, hb2⟩, ss, hs2⟩ :=
            hwf (name, cfg2) (List.mem_cons_self _ _) hen
          rcases hsrc : scrape_source env st0 name cfg2 with ⟨r, st2⟩
          have hr : r = .ok (ss.flatMap (sectionArticles env name b)) := by
            have h1 := scrape_source_fst env st0 name cfg2 b ss hb2 hs2
            rw [hsrc] at h1
            exact h1
          subst hr
          exact ih _ _ (fun q hq => hwf q (List.mem_cons_of_mem _ hq))
        · rw [if_neg hen]
          exact ih _ _ (fun q hq => hwf q (List.mem_cons_of_mem _ hq))
    intro sources hwf
    exact loop_ok sources [] { selenium_driver := none } hwf

/-- A scraping environment where the section page of `fin.example` lists two
article links, of which only the first can be fetched; the second fetch
raises. -/
def envPart : ScrapeEnv :=
  { fetchSection := fun _ => .ok ["/news/alpha", "/news/beta"],
    fetchArticle := fun u =>
      if u = "https://fin.example//news/alpha" then
        .ok { title := "Markets rally", text := "stock market " ++ zFill,
              publish_date := none }
      else .error "timeout",
    now := "2025-01-01T00:00:00" }

/-- A well-formed config for the `fin.example` source. -/
def cfgPart : SourceConfig :=
  { base_url := some "https://fin.example/", sections := some ["markets"],
    requires_selenium := false, scrape_enabled := true }

/-- Witness for C8 at `envPart`/`cfgPart`: the source scrape returns normally
with the per-section article lists even though one article fetch raises. -/
theorem C8_failure_isolation_witness :
    (scrape_source envPart { selenium_driver := none } "fin" cfgPart).1 =
      .ok (["markets"].flatMap (sectionArticles envPart "fin" "https://fin.example/")) :=
  (C8_failure_isolation envPart { selenium_driver := none } "fin" cfgPart
    "https://fin.example/" ["markets"] rfl rfl).1

/-- An environment in which every fetch raises. -/
def envFail : ScrapeEnv :=
  { fetchSection := fun _ => .error "network unreachable",
    fetchArticle := fun _ => .error "network unreachable",
    now := "2025-01-01T00:00:00" }

/-- A Selenium-requiring enabled source with a well-formed config. -/
def cfgSelenium : SourceConfig :=
  { base_url := some "https://site-a.example/", sections := some ["markets"],
    requires_selenium := true, scrape_enabled := true }

/-- An enabled source whose config lacks `base_url`, so
`source_config['base_url']` raises `KeyError`. -/
def cfgMissingBase : SourceConfig :=
  { base_url := none, sections := some ["news"],
    requires_selenium := false, scrape_enabled := true }

/-- C3 fails on the code: scraping `site_a` acquires the Selenium driver,
then `site_b`'s missing `base_url` raises a `KeyError` that propagates out of
`scrape_all` before the `self.selenium_driver.quit()` epilogue — the run ends
on the error exit path with the driver still live (`some true`), never quit.
(`scrape_all` has no `try/finally` around the source loop.) -/
theorem C3_driver_leaked_on_error_path :
    (scrape_all envFail [("site_a", cfgSelenium), ("site_b", cfgMissingBase)]).1 =
      Except.error "KeyError: base_url" ∧
    (scrape_all envFail
      [("site_a", cfgSelenium), ("site_b", cfgMissingBase)]).2.selenium_driver =
      some true := ⟨rfl, rfl⟩

/-- On the normal exit path the driver is quit: the same run without the
broken source ends with the driver created and quit (`some false`). -/
theorem C3_driver_quit_on_normal_path :
    (scrape_all envFail [("site_a", cfgSelenium)]).1 = Except.ok [] ∧
    (scrape_all envFail [("site_a", cfgSelenium)]).2.selenium_driver =
      some false := ⟨rfl, rfl⟩
